import Mathlib

/-!
Verification development for the real-time voice session engine of the
ScholarSync repository (component `LiveInterviewCoach`).

The embedding below models, faithfully to the TypeScript source:
  - `createPcmBlob` : float samples -> 16-bit PCM little-endian bytes -> base64
    text (the JS `btoa` applied to the byte string);
  - `decodeAudioData` : base64 text -> bytes (the JS `atob`) -> 16-bit LE signed
    integers -> float samples (division by 32768);
  - the `onmessage` playback scheduler (the mutable `nextStartTime` cursor and
    the list of scheduled buffer sources);
  - the `connect` / `disconnect` control flow of the session component.

Samples and device-clock times are modelled as rationals: every floating-point
operation the source performs on them (multiplication and division by the
power of two 32768, `Math.max`, addition of durations) is exact on binary
floating point for the magnitudes involved, so the rational model computes the
same values the JS engine does.
-/

/-- Character codes of the standard base64 alphabet `A..Z a..z 0..9 + /`,
used by the JS `btoa` / `atob` pair that `createPcmBlob` and `decodeAudioData`
call. Index `s` holds the character encoding the sextet `s`. -/
def b64alphabet : List ℕ :=
  [65, 66, 67, 68, 69, 70, 71, 72, 73, 74, 75, 76, 77, 78, 79, 80, 81, 82,
   83, 84, 85, 86, 87, 88, 89, 90,
   97, 98, 99, 100, 101, 102, 103, 104, 105, 106, 107, 108, 109, 110, 111,
   112, 113, 114, 115, 116, 117, 118, 119, 120, 121, 122,
   48, 49, 50, 51, 52, 53, 54, 55, 56, 57, 43, 47]

/-- Character code encoding one sextet, as produced by `btoa`. -/
def sextetChar (s : ℕ) : ℕ := b64alphabet.getD s 0

/-- Sextet decoded from one base64 character code, as consumed by `atob`
(on the valid alphabet; `atob` raises on characters outside it, which no
claim exercises). -/
def charSextet (c : ℕ) : ℕ := b64alphabet.findIdx (fun a => a == c)

/-- Base64 encoding of a byte list, the JS `btoa` applied to a binary string:
groups of three bytes become four alphabet characters; a trailing group of one
or two bytes is padded with `=` (character code 61). -/
def b64encode : List ℕ → List ℕ
  | [] => []
  | [b0] => [sextetChar (b0 / 4), sextetChar (b0 % 4 * 16), 61, 61]
  | [b0, b1] =>
      [sextetChar (b0 / 4), sextetChar (b0 % 4 * 16 + b1 / 16),
       sextetChar (b1 % 16 * 4), 61]
  | b0 :: b1 :: b2 :: rest =>
      sextetChar (b0 / 4) :: sextetChar (b0 % 4 * 16 + b1 / 16) ::
      sextetChar (b1 % 16 * 4 + b2 / 64) :: sextetChar (b2 % 64) ::
      b64encode rest

/-- Base64 decoding of a character-code list, the JS `atob`: four characters
yield three bytes, with `=` padding (code 61) marking a final group of one or
two bytes. -/
def b64decode : List ℕ → List ℕ
  | c0 :: c1 :: c2 :: c3 :: rest =>
      if c2 = 61 then
        [charSextet c0 * 4 + charSextet c1 / 16]
      else if c3 = 61 then
        [charSextet c0 * 4 + charSextet c1 / 16,
         charSextet c1 % 16 * 16 + charSextet c2 / 4]
      else
        (charSextet c0 * 4 + charSextet c1 / 16) ::
        (charSextet c1 % 16 * 16 + charSextet c2 / 4) ::
        (charSextet c2 % 4 * 64 + charSextet c3) :: b64decode rest
  | _ => []

theorem charSextet_sextetChar : ∀ s : ℕ, s < 64 → charSextet (sextetChar s) = s := by
  decide

theorem sextetChar_ne_61 : ∀ s : ℕ, s < 64 → sextetChar s ≠ 61 := by
  decide

/-- The JS `atob` undoes `btoa` on every binary string (byte values below
256). -/
theorem b64decode_b64encode : ∀ bs : List ℕ, (∀ b ∈ bs, b < 256) →
    b64decode (b64encode bs) = bs
  | [] => fun _ => rfl
  | [b0] => fun h => by
      have hb0 : b0 < 256 := h b0 (by simp)
      have h0 : b0 / 4 < 64 := by omega
      have h1 : b0 % 4 * 16 < 64 := by omega
      simp [b64encode, b64decode,
        charSextet_sextetChar _ h0, charSextet_sextetChar _ h1]
      omega
  | [b0, b1] => fun h => by
      have hb0 : b0 < 256 := h b0 (by simp)
      have hb1 : b1 < 256 := h b1 (by simp)
      have h0 : b0 / 4 < 64 := by omega
      have h1 : b0 % 4 * 16 + b1 / 16 < 64 := by omega
      have h2 : b1 % 16 * 4 < 64 := by omega
      simp [b64encode, b64decode, sextetChar_ne_61 _ h2,
        charSextet_sextetChar _ h0, charSextet_sextetChar _ h1,
        charSextet_sextetChar _ h2]
      omega
  | b0 :: b1 :: b2 :: b3 :: rest => fun h => by
      have hb0 : b0 < 256 := h b0 (by simp)
      have hb1 : b1 < 256 := h b1 (by simp)
      have hb2 : b2 < 256 := h b2 (by simp)
      have h0 : b0 / 4 < 64 := by omega
      have h1 : b0 % 4 * 16 + b1 / 16 < 64 := by omega
      have h2 : b1 % 16 * 4 + b2 / 64 < 64 := by omega
      have h3 : b2 % 64 < 64 := by omega
      have ih : b64decode (b64encode (b3 :: rest)) = b3 :: rest :=
        b64decode_b64encode (b3 :: rest) (fun b hb => h b (by simp [hb]))
      simp [b64encode, b64decode, sextetChar_ne_61 _ h2, sextetChar_ne_61 _ h3,
        charSextet_sextetChar _ h0, charSextet_sextetChar _ h1,
        charSextet_sextetChar _ h2, charSextet_sextetChar _ h3, ih]
      omega
  | [b0, b1, b2] => fun h => by
      have hb0 : b0 < 256 := h b0 (by simp)
      have hb1 : b1 < 256 := h b1 (by simp)
      have hb2 : b2 < 256 := h b2 (by simp)
      have h0 : b0 / 4 < 64 := by omega
      have h1 : b0 % 4 * 16 + b1 / 16 < 64 := by omega
      have h2 : b1 % 16 * 4 + b2 / 64 < 64 := by omega
      have h3 : b2 % 64 < 64 := by omega
      simp [b64encode, b64decode, sextetChar_ne_61 _ h2, sextetChar_ne_61 _ h3,
        charSextet_sextetChar _ h0, charSextet_sextetChar _ h1,
        charSextet_sextetChar _ h2, charSextet_sextetChar _ h3]
      omega

/-- Truncation toward zero of a rational, the integer part the ECMAScript
abstract operation ToIntegerOrInfinity produces for a finite float. -/
def truncRat (x : ℚ) : ℤ := if 0 ≤ x then ⌊x⌋ else ⌈x⌉

/-- The unsigned 16-bit pattern that the assignment `int16[i] = data[i] * 32768`
stores: per ECMAScript ToInt16, the float is truncated toward zero and reduced
modulo 2^16 (wrap-around, not clamping). -/
def toUint16 (x : ℚ) : ℕ := (truncRat (x * 32768) % 65536).toNat

/-- Byte serialization of the `Int16Array` filled by `createPcmBlob`, viewed
through `new Uint8Array(int16.buffer)`: each sample contributes its low byte
then its high byte (little-endian). -/
def encodeBytes : List ℚ → List ℕ
  | [] => []
  | x :: rest => toUint16 x % 256 :: toUint16 x / 256 :: encodeBytes rest

/-- Result record of `createPcmBlob`: the base64 payload (as character codes)
and the MIME descriptor. -/
structure PcmBlob where
  data : List ℕ
  mimeType : String

/-- The source helper `createPcmBlob`: multiply each sample by 32768, store
into an `Int16Array` (ToInt16 truncation and wrap), reinterpret the buffer as
bytes, build a binary string and apply `btoa`. -/
def createPcmBlob (samples : List ℚ) : PcmBlob :=
  { data := b64encode (encodeBytes samples)
    mimeType := "audio/pcm;rate=16000" }

/-- Signed 16-bit value read little-endian from two bytes, as an `Int16Array`
view over the byte buffer yields it. -/
def int16OfBytes (lo hi : ℕ) : ℤ :=
  if 32768 ≤ lo + 256 * hi then (lo + 256 * hi : ℤ) - 65536 else (lo + 256 * hi : ℤ)

/-- All complete 16-bit little-endian groups of a byte list, in order. -/
def bytesToInt16s : List ℕ → List ℤ
  | lo :: hi :: rest => int16OfBytes lo hi :: bytesToInt16s rest
  | _ => []

/-- Core of the source helper `decodeAudioData` after the `atob` step: the
constructor `new Int16Array(bytes.buffer)` requires the buffer byte length to
be a multiple of 2 and raises a RangeError otherwise (ECMAScript typed-array
construction over a buffer); on success every 16-bit LE signed sample is
divided by 32768.0 into the channel data. -/
def decodeAudioDataBytes (bytes : List ℕ) : Except String (List ℚ) :=
  if bytes.length % 2 = 0 then
    .ok ((bytesToInt16s bytes).map (fun v : ℤ => (v : ℚ) / 32768))
  else
    .error "RangeError: byte length of Int16Array should be a multiple of 2"

/-- The source helper `decodeAudioData`: `atob` the base64 payload into bytes,
then reinterpret as 16-bit LE signed integers and divide by 32768.0. The
returned list is the channel data of the `AudioBuffer` the source builds at
sample rate 24000. -/
def decodeAudioData (b64 : List ℕ) : Except String (List ℚ) :=
  decodeAudioDataBytes (b64decode b64)

/-- One playback source created by `outputAudioContext.createBufferSource()`
and started by the scheduler. `start` is the device-clock time passed to
`source.start`, `duration` is `audioBuffer.duration` (sample count over the
24000 Hz rate). `stopped` records whether `source.stop()` was ever invoked on
it; the `onmessage` handler in the source never invokes it. -/
structure ScheduledSource where
  start : ℚ
  duration : ℚ
  stopped : Bool

/-- Scheduler state captured by the `connect` closure: the mutable cursor
`nextStartTime` (declared `let nextStartTime = 0`) and the sources scheduled so
far on the output audio context, in creation order. -/
structure SchedState where
  nextStartTime : ℚ
  scheduled : List ScheduledSource

/-- Initial scheduler state of a session: `nextStartTime = 0`, nothing
scheduled. -/
def schedInit : SchedState := { nextStartTime := 0, scheduled := [] }

/-- Shape of a `LiveServerMessage` as the `onmessage` handler reads it:
`audioData` is `msg.serverContent?.modelTurn?.parts?.[0]?.inlineData?.data`
(base64 character codes) when present, and `interrupted` is
`msg.serverContent?.interrupted`. -/
structure LiveServerMessage where
  audioData : Option (List ℕ)
  interrupted : Bool

/-- Audio branch of the `onmessage` handler, entered when `audioData` is
present, with `now` the value of `outputAudioContext.currentTime` at entry:
first `nextStartTime = Math.max(nextStartTime, currentTime)`, then the awaited
`decodeAudioData`; on success a buffer source holding the decoded buffer is
started at `nextStartTime` and the cursor advances by `audioBuffer.duration`.
When the awaited decode rejects, the handler stops there, the cursor already
raised to the max. -/
def processAudio (now : ℚ) (st : SchedState) (data : List ℕ) : SchedState :=
  let nst := max st.nextStartTime now
  match decodeAudioData data with
  | .error _ => { st with nextStartTime := nst }
  | .ok samples =>
      { nextStartTime := nst + (samples.length : ℚ) / 24000
        scheduled := st.scheduled ++
          [{ start := nst, duration := (samples.length : ℚ) / 24000, stopped := false }] }

/-- The `onmessage` callback: the audio branch runs first when audio data is
present; afterwards, if `msg.serverContent?.interrupted` is set, the handler
executes `nextStartTime = 0` and nothing else — no scheduled source is
stopped. -/
def onmessage (now : ℚ) (st : SchedState) (msg : LiveServerMessage) : SchedState :=
  let st1 :=
    match msg.audioData with
    | some data => processAudio now st data
    | none => st
  if msg.interrupted then { st1 with nextStartTime := 0 } else st1

/-- Folding the `onmessage` handler over a trace of messages, each paired with
the device-clock reading `outputAudioContext.currentTime` observed while
handling it. -/
def runSched (st : SchedState) : List (ℚ × LiveServerMessage) → SchedState
  | [] => st
  | (t, m) :: rest => runSched (onmessage t st m) rest

/-- Modelled from the spec (section 4.4, step 5), for comparison with the
source handler `onmessage`: identical message processing except that an
interruption resets the cursor to the current device-clock time,
`nextStartTime = deviceClockNow()`, instead of the source assignment
`nextStartTime = 0`. -/
def onmessageSpecReset (now : ℚ) (st : SchedState) (msg : LiveServerMessage) :
    SchedState :=
  let st1 :=
    match msg.audioData with
    | some data => processAudio now st data
    | none => st
  if msg.interrupted then { st1 with nextStartTime := now } else st1

/-- Folding the spec variant of the handler over a message trace. -/
def runSchedSpecReset (st : SchedState) : List (ℚ × LiveServerMessage) → SchedState
  | [] => st
  | (t, m) :: rest => runSchedSpecReset (onmessageSpecReset t st m) rest

/-- One microphone track of the stream returned by `getUserMedia`; `stopped`
records whether `track.stop()` has been invoked. -/
structure Track where
  stopped : Bool

/-- The `MediaStream` held in `streamRef`, with an identity so replacement of
the stream by a second `connect` call is observable. -/
structure MicStream where
  id : ℕ
  tracks : List Track

/-- Lifecycle state of the output `AudioContext` held in
`audioContextRef`. -/
inductive ACState
  | running
  | closed
deriving DecidableEq

/-- The output audio context, with an identity so replacement by a second
`connect` call is observable. -/
structure AudioCtx where
  id : ℕ
  state : ACState

/-- Component state of `LiveInterviewCoach` relevant to session lifecycle:
the two refs, the `isActive` and `status` React states, and a ghost flag
`sessionClosed` recording whether a session-close call on the live connection
was ever made (no statement in the component makes one; `disconnect` carries
the comment that it just cuts the stream). -/
structure CoachState where
  stream : Option MicStream
  audioCtx : Option AudioCtx
  isActive : Bool
  status : String
  sessionClosed : Bool

/-- The `disconnect` handler: stop every track of the held stream (when the
ref is non-null), close the held audio context unless already closed, then
`setIsActive(false)` and `setStatus("Ready to start")`. No session-close call
and no per-source cancellation occurs. -/
def disconnect (st : CoachState) : CoachState :=
  { stream :=
      match st.stream with
      | some s => some { s with tracks := s.tracks.map fun _ => { stopped := true } }
      | none => none
    audioCtx :=
      match st.audioCtx with
      | some c => if c.state ≠ ACState.closed then some { c with state := ACState.closed } else some c
      | none => none
    isActive := false
    status := "Ready to start"
    sessionClosed := st.sessionClosed }

/-- External calls the `connect` function can make, in the order the source
makes them. -/
inductive ExtCall
  | getLiveClient
  | createContexts
  | getUserMedia
  | liveConnect
deriving DecidableEq

/-- Outcomes of the fallible external steps of `connect`, supplied by the
environment: whether `getLiveClient()` throws (missing API key), whether the
awaited `getUserMedia` rejects (permission denied), and the fresh objects a
successful run stores into the refs. -/
structure ConnectEnv where
  liveClientOk : Bool
  micResult : Except String MicStream
  newCtxId : ℕ

/-- The `connect` function, as a state transformer that also reports the
external calls made. Control flow of the source: `setStatus("Connecting...")`;
then inside `try`: `getLiveClient()`, creation of the audio contexts with
`audioContextRef.current = outputAudioContext`, `await getUserMedia` storing
the stream into `streamRef`, and finally `liveClient.connect(...)`. Any
rejection jumps to `catch`, which sets the status to
`"Failed to access microphone or API."`. `isActive` is not written here — it
is set only later by the `onopen` callback. -/
def connect (env : ConnectEnv) (st : CoachState) : CoachState × List ExtCall :=
  let st0 := { st with status := "Connecting..." }
  if env.liveClientOk then
    let st1 := { st0 with audioCtx := some { id := env.newCtxId, state := ACState.running } }
    match env.micResult with
    | .error _ =>
        ({ st1 with status := "Failed to access microphone or API." },
         [ExtCall.getLiveClient, ExtCall.createContexts, ExtCall.getUserMedia])
    | .ok stream =>
        ({ st1 with stream := some stream },
         [ExtCall.getLiveClient, ExtCall.createContexts, ExtCall.getUserMedia,
          ExtCall.liveConnect])
  else
    ({ st0 with status := "Failed to access microphone or API." },
     [ExtCall.getLiveClient])

theorem truncRat_sub_lt (x : ℚ) : |x - (truncRat x : ℚ)| < 1 := by
  unfold truncRat
  split
  · have h1 : ((⌊x⌋ : ℤ) : ℚ) ≤ x := Int.floor_le x
    have h2 : x < ⌊x⌋ + 1 := Int.lt_floor_add_one x
    rw [abs_of_nonneg (by linarith)]
    linarith
  · have h1 : x ≤ ((⌈x⌉ : ℤ) : ℚ) := Int.le_ceil x
    have h2 : ((⌈x⌉ : ℤ) : ℚ) < x + 1 := Int.ceil_lt_add_one x
    rw [abs_of_nonpos (by linarith)]
    linarith

theorem truncRat_bounds {x : ℚ} (h1 : -32768 ≤ x) (h2 : x < 32768) :
    -32768 ≤ truncRat x ∧ truncRat x ≤ 32767 := by
  unfold truncRat
  split
  · rename_i hx
    have hlo : 0 ≤ ⌊x⌋ := Int.floor_nonneg.mpr hx
    have hhi : ⌊x⌋ < 32768 := Int.floor_lt.mpr (by exact_mod_cast h2)
    omega
  · rename_i hx
    push_neg at hx
    have hhi : ⌈x⌉ ≤ (0 : ℤ) := Int.ceil_le.mpr (by exact_mod_cast hx.le)
    have hlo : (-32768 : ℚ) ≤ ((⌈x⌉ : ℤ) : ℚ) := le_trans h1 (Int.le_ceil x)
    have hlo2 : (-32768 : ℤ) ≤ ⌈x⌉ := by exact_mod_cast hlo
    omega

theorem toUint16_lt (x : ℚ) : toUint16 x < 65536 := by
  unfold toUint16
  omega

theorem encodeBytes_lt : ∀ xs : List ℚ, ∀ b ∈ encodeBytes xs, b < 256
  | [] => by simp [encodeBytes]
  | x :: rest => by
      have h := toUint16_lt x
      have ih := encodeBytes_lt rest
      simp only [encodeBytes, List.mem_cons]
      rintro b (rfl | rfl | hb)
      · omega
      · omega
      · exact ih b hb

theorem encodeBytes_length : ∀ xs : List ℚ, (encodeBytes xs).length = 2 * xs.length
  | [] => rfl
  | x :: rest => by
      simp [encodeBytes, encodeBytes_length rest]
      omega

theorem bytesToInt16s_length : ∀ l : List ℕ, (bytesToInt16s l).length = l.length / 2
  | [] => rfl
  | [_] => by simp [bytesToInt16s]
  | _ :: _ :: rest => by
      simp [bytesToInt16s, bytesToInt16s_length rest]
      omega

theorem int16OfBytes_pack (n : ℤ) (h1 : -32768 ≤ n) (h2 : n ≤ 32767) :
    int16OfBytes ((n % 65536).toNat % 256) ((n % 65536).toNat / 256) = n := by
  unfold int16OfBytes
  split <;> (push_cast; omega)

theorem sample_roundtrip {x : ℚ} (h1 : -1 ≤ x) (h2 : x < 1) :
    int16OfBytes (toUint16 x % 256) (toUint16 x / 256) = truncRat (x * 32768) ∧
    |(truncRat (x * 32768) : ℚ) / 32768 - x| ≤ 1 / 32768 := by
  have hb : -32768 ≤ truncRat (x * 32768) ∧ truncRat (x * 32768) ≤ 32767 :=
    truncRat_bounds (by linarith) (by linarith)
  constructor
  · unfold toUint16
    exact int16OfBytes_pack _ hb.1 hb.2
  · have habs : |x * 32768 - (truncRat (x * 32768) : ℚ)| < 1 := truncRat_sub_lt _
    have heq : (truncRat (x * 32768) : ℚ) / 32768 - x =
        ((truncRat (x * 32768) : ℚ) - x * 32768) / 32768 := by ring
    rw [heq, abs_div, abs_of_pos (by norm_num : (0 : ℚ) < 32768)]
    rw [div_le_div_iff₀ (by norm_num) (by norm_num)]
    rw [abs_sub_comm] at habs
    nlinarith [abs_nonneg ((truncRat (x * 32768) : ℚ) - x * 32768)]

theorem decoded_forall2 : ∀ xs : List ℚ, (∀ x ∈ xs, -1 ≤ x ∧ x < 1) →
    List.Forall₂ (fun y x => |y - x| ≤ 1 / 32768)
      ((bytesToInt16s (encodeBytes xs)).map (fun v : ℤ => (v : ℚ) / 32768)) xs
  | [] => fun _ => by simp [encodeBytes, bytesToInt16s]
  | x :: rest => fun h => by
      have hx := h x (by simp)
      have ih := decoded_forall2 rest (fun y hy => h y (by simp [hy]))
      have hs := sample_roundtrip hx.1 hx.2
      simp only [encodeBytes, bytesToInt16s, List.map_cons]
      exact List.Forall₂.cons (by rw [hs.1]; exact hs.2) ih

/-- C1: the round trip decode-of-encode preserves length and reproduces every
sample to within one quantization step, for samples in the half-open interval
from -1 inclusive to 1 exclusive. (At a sample equal to 1 the claim fails:
see the counterexample; ToInt16 wraps 32768 to -32768.) -/
theorem decode_encode_roundtrip (xs : List ℚ) (h : ∀ x ∈ xs, -1 ≤ x ∧ x < 1) :
    ∃ ys : List ℚ, decodeAudioData (createPcmBlob xs).data = Except.ok ys ∧
      ys.length = xs.length ∧
      List.Forall₂ (fun y x => |y - x| ≤ 1 / 32768) ys xs := by
  have hbytes : b64decode (b64encode (encodeBytes xs)) = encodeBytes xs :=
    b64decode_b64encode (encodeBytes xs) (encodeBytes_lt xs)
  refine ⟨(bytesToInt16s (encodeBytes xs)).map (fun v : ℤ => (v : ℚ) / 32768), ?_, ?_, ?_⟩
  · unfold decodeAudioData createPcmBlob
    simp only [hbytes, decodeAudioDataBytes, encodeBytes_length]
    rw [if_pos (by omega)]
  · have := (decoded_forall2 xs h).length_eq
    simpa using this
  · exact decoded_forall2 xs h

/-- C1 counterexample: at the in-range sample 1, the encoded value wraps to
-32768, the decoded sample is -1, and the round-trip error is 2, far above one
quantization step. -/
theorem decode_encode_roundtrip_cex :
    decodeAudioData (createPcmBlob [(1 : ℚ)]).data = Except.ok [-1] ∧
    ¬ |(-1 : ℚ) - 1| ≤ 1 / 32768 := by
  have htr : truncRat ((1 : ℚ) * 32768) = 32768 := by
    unfold truncRat
    rw [if_pos (by norm_num)]
    norm_num
  have hu : toUint16 1 = 32768 := by
    unfold toUint16
    rw [htr]
    decide
  constructor
  · unfold decodeAudioData createPcmBlob
    have hb : encodeBytes [(1 : ℚ)] = [0, 128] := by
      simp [encodeBytes, hu]
    rw [hb]
    have : b64decode (b64encode [0, 128]) = [0, 128] := by decide
    rw [this]
    unfold decodeAudioDataBytes
    norm_num [bytesToInt16s, int16OfBytes]
  · rw [show |(-1 : ℚ) - 1| = 2 by norm_num]
    norm_num

/-- C1 witness: the round-trip theorem applied to the concrete two-sample
sequence with samples 0 and -1. -/
theorem decode_encode_roundtrip_witness :
    ∃ ys : List ℚ, decodeAudioData (createPcmBlob [(0 : ℚ), -1]).data = Except.ok ys ∧
      ys.length = ([(0 : ℚ), -1]).length ∧
      List.Forall₂ (fun y x => |y - x| ≤ 1 / 32768) ys [(0 : ℚ), -1] :=
  decode_encode_roundtrip [(0 : ℚ), -1] (by
    intro x hx
    simp only [List.mem_cons, List.not_mem_nil, or_false] at hx
    rcases hx with rfl | rfl <;> norm_num)

/-- C4 (amended): the decoder is total only on inputs whose text-decoded byte
length is even, where it returns half as many samples; on an odd byte length
the `Int16Array` construction raises a RangeError instead of truncating the
trailing byte. -/
theorem decodeAudioData_even_ok_odd_error (s : List ℕ) :
    ((b64decode s).length % 2 = 0 →
      ∃ ys, decodeAudioData s = Except.ok ys ∧ ys.length = (b64decode s).length / 2) ∧
    ((b64decode s).length % 2 = 1 →
      decodeAudioData s =
        Except.error "RangeError: byte length of Int16Array should be a multiple of 2") := by
  constructor
  · intro h
    refine ⟨(bytesToInt16s (b64decode s)).map (fun v : ℤ => (v : ℚ) / 32768), ?_, ?_⟩
    · unfold decodeAudioData decodeAudioDataBytes
      rw [if_pos h]
    · rw [List.length_map, bytesToInt16s_length]
  · intro h
    unfold decodeAudioData decodeAudioDataBytes
    rw [if_neg (by omega)]

/-- C4 counterexample: the base64 input decoding to the single byte 0 (an odd
text-decoded byte length) makes `decodeAudioData` raise, rather than return
zero samples. -/
theorem decodeAudioData_odd_trailing_cex :
    (b64decode [65, 65, 61, 61]).length = 1 ∧
    decodeAudioData [65, 65, 61, 61] =
      Except.error "RangeError: byte length of Int16Array should be a multiple of 2" := by
  constructor
  · decide
  · unfold decodeAudioData decodeAudioDataBytes
    rw [if_neg (by decide)]

/-- C4 witness: the even case of the parity theorem at the base64 input
decoding to two bytes. -/
theorem decodeAudioData_even_ok_witness :
    ∃ ys, decodeAudioData [65, 65, 65, 61] = Except.ok ys ∧
      ys.length = (b64decode [65, 65, 65, 61]).length / 2 :=
  (decodeAudioData_even_ok_odd_error [65, 65, 65, 61]).1 (by decide)

theorem int16OfBytes_encode (x : ℚ) :
    -32768 ≤ int16OfBytes (toUint16 x % 256) (toUint16 x / 256) ∧
    int16OfBytes (toUint16 x % 256) (toUint16 x / 256) ≤ 32767 ∧
    (65536 : ℤ) ∣ (int16OfBytes (toUint16 x % 256) (toUint16 x / 256) - truncRat (x * 32768)) := by
  unfold toUint16 int16OfBytes
  generalize truncRat (x * 32768) = n
  split <;> exact ⟨by omega, by omega, by omega⟩

theorem encoded_values_forall2 : ∀ xs : List ℚ,
    List.Forall₂
      (fun (v : ℤ) (x : ℚ) => -32768 ≤ v ∧ v ≤ 32767 ∧
        (65536 : ℤ) ∣ (v - truncRat (x * 32768)))
      (bytesToInt16s (encodeBytes xs)) xs
  | [] => by simp [encodeBytes, bytesToInt16s]
  | x :: rest => by
      simp only [encodeBytes, bytesToInt16s]
      exact List.Forall₂.cons (int16OfBytes_encode x) (encoded_values_forall2 rest)

/-- C5 (amended): `createPcmBlob` is deterministic and total; each sample is
multiplied by 32768, truncated toward zero, packed as a little-endian 16-bit
value and base64 text encoded; an out-of-range sample is reduced modulo 2^16
(two's-complement wrap-around), not clamped: the stored 16-bit value is always
in the signed range and congruent to the truncated product modulo 65536. -/
theorem createPcmBlob_wrap_semantics (xs : List ℚ) :
    (createPcmBlob xs).mimeType = "audio/pcm;rate=16000" ∧
    (createPcmBlob xs).data = b64encode (encodeBytes xs) ∧
    (encodeBytes xs).length = 2 * xs.length ∧
    List.Forall₂
      (fun (v : ℤ) (x : ℚ) => -32768 ≤ v ∧ v ≤ 32767 ∧
        (65536 : ℤ) ∣ (v - truncRat (x * 32768)))
      (bytesToInt16s (encodeBytes xs)) xs :=
  ⟨rfl, rfl, encodeBytes_length xs, encoded_values_forall2 xs⟩

/-- C5 counterexample: the out-of-range sample 2 is stored as the 16-bit value
0 (wrap-around of 65536), not as either clamping bound. -/
theorem createPcmBlob_no_clamp_cex :
    bytesToInt16s (encodeBytes [(2 : ℚ)]) = [0] ∧
    (0 : ℤ) ≠ 32767 ∧ (0 : ℤ) ≠ -32768 := by
  have htr : truncRat ((2 : ℚ) * 32768) = 65536 := by
    unfold truncRat
    rw [if_pos (by norm_num)]
    norm_num
  have hu : toUint16 2 = 0 := by
    unfold toUint16
    rw [htr]
    decide
  refine ⟨?_, by decide, by decide⟩
  simp [encodeBytes, bytesToInt16s, hu, int16OfBytes]

theorem charSextet_le (c : ℕ) : charSextet c ≤ 64 := by
  have h : List.findIdx (fun a => a == c) b64alphabet ≤ b64alphabet.length :=
    List.findIdx_le_length _
  have hlen : b64alphabet.length = 64 := by decide
  unfold charSextet
  omega

theorem b64decode_le : ∀ s : List ℕ, ∀ b ∈ b64decode s, b ≤ 260
  | c0 :: c1 :: c2 :: c3 :: rest => by
      have h0 := charSextet_le c0
      have h1 := charSextet_le c1
      have h2 := charSextet_le c2
      have h3 := charSextet_le c3
      have ih := b64decode_le rest
      intro b hb
      unfold b64decode at hb
      split at hb
      · simp at hb
        omega
      · split at hb
        · simp at hb
          rcases hb with rfl | rfl <;> omega
        · simp at hb
          rcases hb with rfl | rfl | rfl | hb
          · omega
          · omega
          · omega
          · exact ih b hb
  | [] => by simp [b64decode]
  | [_] => by simp [b64decode]
  | [_, _] => by simp [b64decode]
  | [_, _, _] => by simp [b64decode]

theorem int16OfBytes_range (lo hi : ℕ) (hlo : lo ≤ 260) (hhi : hi ≤ 260) :
    -32768 ≤ int16OfBytes lo hi ∧ int16OfBytes lo hi ≤ 32767 := by
  unfold int16OfBytes
  split <;> omega

theorem bytesToInt16s_range : ∀ l : List ℕ, (∀ b ∈ l, b ≤ 260) →
    ∀ v ∈ bytesToInt16s l, -32768 ≤ v ∧ v ≤ 32767
  | lo :: hi :: rest => by
      intro h v hv
      unfold bytesToInt16s at hv
      simp at hv
      rcases hv with rfl | hv
      · exact int16OfBytes_range lo hi (h lo (by simp)) (h hi (by simp))
      · exact bytesToInt16s_range rest (fun b hb => h b (by simp [hb])) v hv
  | [] => by simp [bytesToInt16s]
  | [_] => by simp [bytesToInt16s]

/-- C9: whenever the text-decoded byte length is even, decoding succeeds and
every decoded sample lies in the closed interval from -1 to 32767/32768; in
particular decoded output is within the unit interval. -/
theorem decoded_samples_in_range (s : List ℕ) (h : (b64decode s).length % 2 = 0) :
    ∃ ys, decodeAudioData s = Except.ok ys ∧
      ∀ y ∈ ys, -1 ≤ y ∧ y ≤ 32767 / 32768 := by
  refine ⟨(bytesToInt16s (b64decode s)).map (fun v : ℤ => (v : ℚ) / 32768), ?_, ?_⟩
  · unfold decodeAudioData decodeAudioDataBytes
    rw [if_pos h]
  · intro y hy
    rw [List.mem_map] at hy
    obtain ⟨v, hv, rfl⟩ := hy
    have hr := bytesToInt16s_range (b64decode s) (b64decode_le s) v hv
    have hc1 : (-32768 : ℚ) ≤ (v : ℚ) := by exact_mod_cast hr.1
    have hc2 : (v : ℚ) ≤ 32767 := by exact_mod_cast hr.2
    constructor
    · rw [le_div_iff₀ (by norm_num : (0 : ℚ) < 32768)]
      linarith
    · rw [div_le_div_iff₀ (by norm_num) (by norm_num : (0 : ℚ) < 32768)]
      linarith

/-- C9 witness: the range theorem at the base64 input decoding to two zero
bytes. -/
theorem decoded_samples_in_range_witness :
    ∃ ys, decodeAudioData [65, 65, 65, 61] = Except.ok ys ∧
      ∀ y ∈ ys, -1 ≤ y ∧ y ≤ 32767 / 32768 :=
  decoded_samples_in_range [65, 65, 65, 61] (by decide)

/-- Scheduling invariant: the scheduled sources are pairwise back-to-back
(each ends no later than the next begins) and every scheduled source ends no
later than the cursor. -/
def SchedInv (st : SchedState) : Prop :=
  List.Chain' (fun a b => a.start + a.duration ≤ b.start) st.scheduled ∧
  ∀ s ∈ st.scheduled, s.start + s.duration ≤ st.nextStartTime

theorem schedInv_onmessage (t : ℚ) (st : SchedState) (m : LiveServerMessage)
    (hm : m.interrupted = false) (hinv : SchedInv st) : SchedInv (onmessage t st m) := by
  obtain ⟨ad, intr⟩ := m
  simp only at hm
  subst hm
  cases ad with
  | none => simpa [onmessage] using hinv
  | some d =>
      simp only [onmessage, Bool.false_eq_true, if_false]
      unfold processAudio
      cases hdec : decodeAudioData d with
      | error e =>
          exact ⟨hinv.1, fun s hs => le_trans (hinv.2 s hs) (le_max_left _ _)⟩
      | ok samples =>
          have hdur : 0 ≤ (samples.length : ℚ) / 24000 := by positivity
          constructor
          · refine List.chain'_append.2 ⟨hinv.1, List.chain'_singleton _, ?_⟩
            intro x hx y hy
            simp only [List.head?_cons, Option.mem_some_iff] at hy
            subst hy
            have hx' : x ∈ st.scheduled := by
              obtain ⟨hne, rfl⟩ := List.mem_getLast?_eq_getLast hx
              exact List.getLast_mem hne
            exact le_trans (hinv.2 x hx') (le_max_left _ _)
          · intro s hs
            rcases List.mem_append.1 hs with hs | hs
            · have h1 := hinv.2 s hs
              have h2 : st.nextStartTime ≤ max st.nextStartTime t := le_max_left _ _
              simp only
              linarith
            · simp only [List.mem_singleton] at hs
              subst hs
              simp only
              linarith [le_refl (max st.nextStartTime t)]

theorem schedInv_runSched : ∀ (msgs : List (ℚ × LiveServerMessage)) (st : SchedState),
    (∀ p ∈ msgs, p.2.interrupted = false) → SchedInv st → SchedInv (runSched st msgs)
  | [], _ => fun _ h => h
  | (t, m) :: rest, st => fun h hinv =>
      schedInv_runSched rest (onmessage t st m)
        (fun p hp => h p (by simp [hp]))
        (schedInv_onmessage t st m (h (t, m) (by simp)) hinv)

/-- C3: in an interruption-free message sequence the cursor `nextStartTime`
never decreases at any event, each audio chunk is scheduled to start at the
maximum of the cursor and the current device-clock reading, and the scheduled
sources of the whole run never overlap: each one ends no later than the next
begins. -/
theorem scheduler_monotone_no_overlap :
    (∀ (st : SchedState) (t : ℚ) (m : LiveServerMessage), m.interrupted = false →
        st.nextStartTime ≤ (onmessage t st m).nextStartTime) ∧
    (∀ (st : SchedState) (t : ℚ) (d : List ℕ) (samples : List ℚ),
        decodeAudioData d = Except.ok samples →
        (onmessage t st { audioData := some d, interrupted := false }).scheduled =
          st.scheduled ++ [{ start := max st.nextStartTime t,
                             duration := (samples.length : ℚ) / 24000,
                             stopped := false }]) ∧
    (∀ msgs : List (ℚ × LiveServerMessage),
        (∀ p ∈ msgs, p.2.interrupted = false) →
        List.Chain' (fun a b => a.start + a.duration ≤ b.start)
          (runSched schedInit msgs).scheduled) := by
  refine ⟨?_, ?_, ?_⟩
  · intro st t m hm
    obtain ⟨ad, intr⟩ := m
    simp only at hm
    subst hm
    cases ad with
    | none => simp [onmessage]
    | some d =>
        simp only [onmessage, Bool.false_eq_true, if_false]
        unfold processAudio
        cases hdec : decodeAudioData d with
        | error e => exact le_max_left _ _
        | ok samples =>
            have hdur : 0 ≤ (samples.length : ℚ) / 24000 := by positivity
            have := le_max_left st.nextStartTime t
            simp only
            linarith
  · intro st t d samples hdec
    simp [onmessage, processAudio, hdec]
  · intro msgs h
    exact (schedInv_runSched msgs schedInit h ⟨List.chain'_nil, by simp [schedInit]⟩).1

/-- C3 witness: the no-overlap part of the theorem on a concrete two-chunk
interruption-free trace. -/
theorem scheduler_monotone_no_overlap_witness :
    List.Chain' (fun a b => a.start + a.duration ≤ b.start)
      (runSched schedInit
        [(1, { audioData := some [65, 65, 65, 61], interrupted := false }),
         (2, { audioData := some [65, 65, 65, 61], interrupted := false })]).scheduled :=
  scheduler_monotone_no_overlap.2.2 _ (by
    intro p hp
    simp only [List.mem_cons, List.not_mem_nil, or_false] at hp
    rcases hp with rfl | rfl <;> rfl)

/-- C2 counterexample: with a backlog of three scheduled frames, an
interruption observed at device-clock time 5 leaves all three sources
unstopped and sets the cursor to 0, not to the device-clock reading 5. -/
theorem interrupted_no_cancel_cex :
    (runSched schedInit
      [(0, { audioData := some [65, 65, 65, 61], interrupted := false }),
       (0, { audioData := some [65, 65, 65, 61], interrupted := false }),
       (0, { audioData := some [65, 65, 65, 61], interrupted := false }),
       (5, { audioData := none, interrupted := true })]).nextStartTime = 0 ∧
    (5 : ℚ) ≠ 0 ∧
    (runSched schedInit
      [(0, { audioData := some [65, 65, 65, 61], interrupted := false }),
       (0, { audioData := some [65, 65, 65, 61], interrupted := false }),
       (0, { audioData := some [65, 65, 65, 61], interrupted := false }),
       (5, { audioData := none, interrupted := true })]).scheduled.length = 3 ∧
    ((runSched schedInit
      [(0, { audioData := some [65, 65, 65, 61], interrupted := false }),
       (0, { audioData := some [65, 65, 65, 61], interrupted := false }),
       (0, { audioData := some [65, 65, 65, 61], interrupted := false }),
       (5, { audioData := none, interrupted := true })]).scheduled.all
        (fun s => !s.stopped)) = true := by
  have hdec : decodeAudioData [65, 65, 65, 61] = Except.ok [0] := by
    have hb : b64decode [65, 65, 65, 61] = [0, 0] := by decide
    unfold decodeAudioData
    rw [hb]
    unfold decodeAudioDataBytes
    norm_num [bytesToInt16s, int16OfBytes]
  refine ⟨?_, by norm_num, ?_, ?_⟩ <;>
    simp [runSched, onmessage, processAudio, hdec, schedInit]

/-- C2 (amended): an interruption only resets the cursor to 0 and leaves every
scheduled source in place and unstopped; because a chunk is scheduled at the
maximum of the cursor and the device clock, the first audio chunk after the
interruption, arriving at a non-negative device-clock time, is scheduled to
start exactly at that current time rather than after the stale backlog. -/
theorem interruption_resets_cursor_only (st : SchedState) (t tn : ℚ) (htn : 0 ≤ tn)
    (d : List ℕ) (samples : List ℚ) (hdec : decodeAudioData d = Except.ok samples) :
    (onmessage t st { audioData := none, interrupted := true }).nextStartTime = 0 ∧
    (onmessage t st { audioData := none, interrupted := true }).scheduled = st.scheduled ∧
    (onmessage tn (onmessage t st { audioData := none, interrupted := true })
        { audioData := some d, interrupted := false }).scheduled =
      st.scheduled ++ [{ start := tn, duration := (samples.length : ℚ) / 24000,
                         stopped := false }] := by
  refine ⟨rfl, rfl, ?_⟩
  simp [onmessage, processAudio, hdec, max_eq_right htn]

/-- C2 witness: the amended theorem at a concrete state, interruption time 5
and follow-up chunk time 7. -/
theorem interruption_resets_cursor_only_witness :
    (onmessage 5 { nextStartTime := 3, scheduled := [] }
        { audioData := none, interrupted := true }).nextStartTime = 0 ∧
    (onmessage 5 { nextStartTime := 3, scheduled := [] }
        { audioData := none, interrupted := true }).scheduled =
      ({ nextStartTime := 3, scheduled := [] } : SchedState).scheduled ∧
    (onmessage 7 (onmessage 5 { nextStartTime := 3, scheduled := [] }
          { audioData := none, interrupted := true })
        { audioData := some [65, 65, 65, 61], interrupted := false }).scheduled =
      ({ nextStartTime := 3, scheduled := [] } : SchedState).scheduled ++
        [{ start := 7, duration := (([(0 : ℚ)]).length : ℚ) / 24000, stopped := false }] :=
  interruption_resets_cursor_only { nextStartTime := 3, scheduled := [] } 5 7
    (by norm_num) [65, 65, 65, 61] [0] (by
      have hb : b64decode [65, 65, 65, 61] = [0, 0] := by decide
      unfold decodeAudioData
      rw [hb]
      unfold decodeAudioDataBytes
      norm_num [bytesToInt16s, int16OfBytes])

theorem processAudio_congr (t : ℚ) (stC stS : SchedState) (d : List ℕ)
    (hsch : stC.scheduled = stS.scheduled)
    (hmax : max stC.nextStartTime t = max stS.nextStartTime t) :
    processAudio t stC d = processAudio t stS d := by
  unfold processAudio
  cases decodeAudioData d <;> simp [hsch, hmax]

theorem runSched_spec_aux : ∀ (msgs : List (ℚ × LiveServerMessage)) (stC stS : SchedState),
    stC.scheduled = stS.scheduled →
    (∀ p ∈ msgs, 0 ≤ p.1) →
    List.Pairwise (fun a b : ℚ => a ≤ b) (msgs.map Prod.fst) →
    (stC.nextStartTime = stS.nextStartTime ∨
      (stC.nextStartTime = 0 ∧ ∀ p ∈ msgs, stS.nextStartTime ≤ p.1)) →
    (runSched stC msgs).scheduled = (runSchedSpecReset stS msgs).scheduled
  | [], stC, stS => fun hsch _ _ _ => hsch
  | (t, m) :: rest, stC, stS => fun hsch h0 hp hrel => by
      obtain ⟨ad, intr⟩ := m
      have ht : (0 : ℚ) ≤ t := h0 (t, ⟨ad, intr⟩) (by simp)
      have hmax : max stC.nextStartTime t = max stS.nextStartTime t := by
        rcases hrel with heq | ⟨hz, hle⟩
        · rw [heq]
        · have h1 : stS.nextStartTime ≤ t := hle (t, ⟨ad, intr⟩) (by simp)
          rw [hz, max_eq_right ht, max_eq_right h1]
      have h0r : ∀ p ∈ rest, 0 ≤ p.1 := fun p hp2 => h0 p (by simp [hp2])
      have hpr : List.Pairwise (fun a b : ℚ => a ≤ b) (rest.map Prod.fst) := by
        simp only [List.map_cons, List.pairwise_cons] at hp
        exact hp.2
      have hthead : ∀ p ∈ rest, t ≤ p.1 := by
        simp only [List.map_cons, List.pairwise_cons] at hp
        intro p hp2
        exact hp.1 p.1 (List.mem_map_of_mem Prod.fst hp2)
      cases ad with
      | none =>
          cases intr with
          | false =>
              show (runSched (onmessage t stC ⟨none, false⟩) rest).scheduled =
                (runSchedSpecReset (onmessageSpecReset t stS ⟨none, false⟩) rest).scheduled
              simp only [onmessage, onmessageSpecReset, Bool.false_eq_true, if_false]
              refine runSched_spec_aux rest stC stS hsch h0r hpr ?_
              rcases hrel with heq | ⟨hz, hle⟩
              · exact Or.inl heq
              · exact Or.inr ⟨hz, fun p hp2 => hle p (by simp [hp2])⟩
          | true =>
              show (runSched (onmessage t stC ⟨none, true⟩) rest).scheduled =
                (runSchedSpecReset (onmessageSpecReset t stS ⟨none, true⟩) rest).scheduled
              simp only [onmessage, onmessageSpecReset, if_true]
              refine runSched_spec_aux rest _ _ hsch h0r hpr ?_
              exact Or.inr ⟨rfl, fun p hp2 => hthead p hp2⟩
      | some d =>
          have hpa : processAudio t stC d = processAudio t stS d :=
            processAudio_congr t stC stS d hsch hmax
          cases intr with
          | false =>
              show (runSched (onmessage t stC ⟨some d, false⟩) rest).scheduled =
                (runSchedSpecReset (onmessageSpecReset t stS ⟨some d, false⟩) rest).scheduled
              simp only [onmessage, onmessageSpecReset, Bool.false_eq_true, if_false]
              rw [hpa]
              exact runSched_spec_aux rest _ _ rfl h0r hpr (Or.inl rfl)
          | true =>
              show (runSched (onmessage t stC ⟨some d, true⟩) rest).scheduled =
                (runSchedSpecReset (onmessageSpecReset t stS ⟨some d, true⟩) rest).scheduled
              simp only [onmessage, onmessageSpecReset, if_true]
              rw [hpa]
              refine runSched_spec_aux rest _ _ rfl h0r hpr ?_
              exact Or.inr ⟨rfl, fun p hp2 => by
                simp only
                exact hthead p hp2⟩

/-- C10: under a non-negative, monotone device clock, resetting the cursor to
0 on an interruption (the source assignment) and resetting it to the current
device-clock time (the spec wording) produce identical scheduled sources —
identical start times and durations — for every message trace. -/
theorem zero_reset_equiv_clock_reset (msgs : List (ℚ × LiveServerMessage))
    (h0 : ∀ p ∈ msgs, 0 ≤ p.1)
    (hmono : List.Pairwise (fun a b : ℚ => a ≤ b) (msgs.map Prod.fst)) :
    (runSched schedInit msgs).scheduled = (runSchedSpecReset schedInit msgs).scheduled :=
  runSched_spec_aux msgs schedInit schedInit rfl h0 hmono (Or.inl rfl)

/-- C10 witness: the equivalence theorem on a concrete trace holding a chunk,
an interruption, and a later chunk, at clock times 0, 1, 2. -/
theorem zero_reset_equiv_clock_reset_witness :
    (runSched schedInit
      [(0, { audioData := some [65, 65, 65, 61], interrupted := false }),
       (1, { audioData := none, interrupted := true }),
       (2, { audioData := some [65, 65, 65, 61], interrupted := false })]).scheduled =
    (runSchedSpecReset schedInit
      [(0, { audioData := some [65, 65, 65, 61], interrupted := false }),
       (1, { audioData := none, interrupted := true }),
       (2, { audioData := some [65, 65, 65, 61], interrupted := false })]).scheduled :=
  zero_reset_equiv_clock_reset _
    (by
      intro p hp
      simp only [List.mem_cons, List.not_mem_nil, or_false] at hp
      rcases hp with rfl | rfl | rfl <;> norm_num)
    (by
      simp only [List.map_cons, List.map_nil, List.pairwise_cons, List.mem_cons,
        List.not_mem_nil, or_false]
      norm_num)

/-- C6 counterexample: tearing down an active session via `disconnect` leaves
the ghost session-close flag untouched — no `Connection.close()` step executes
(the source comment says it just cuts the stream). -/
theorem disconnect_no_session_close_cex :
    ¬ ((disconnect
        { stream := some { id := 1, tracks := [{ stopped := false }] },
          audioCtx := some { id := 1, state := ACState.running },
          isActive := true, status := "Connected! Speak now.",
          sessionClosed := false }).sessionClosed = true) := by
  decide

/-- C6 (amended): `disconnect` stops every microphone track and closes the
output audio context (leaving it closed if it already was), resets the active
flag and the status message; it performs no session-close call — the
session-close flag is carried over unchanged — and touches no individual
playback source. -/
theorem disconnect_stops_tracks_closes_output (st : CoachState) :
    (disconnect st).isActive = false ∧
    (disconnect st).status = "Ready to start" ∧
    (disconnect st).sessionClosed = st.sessionClosed ∧
    (∀ s : MicStream, st.stream = some s →
      (disconnect st).stream =
        some { id := s.id, tracks := s.tracks.map fun _ => { stopped := true } }) ∧
    (st.stream = none → (disconnect st).stream = none) ∧
    (∀ c : AudioCtx, st.audioCtx = some c →
      (disconnect st).audioCtx = some { id := c.id, state := ACState.closed }) ∧
    (st.audioCtx = none → (disconnect st).audioCtx = none) := by
  refine ⟨rfl, rfl, rfl, ?_, ?_, ?_, ?_⟩
  · intro s hs
    simp [disconnect, hs]
  · intro hs
    simp [disconnect, hs]
  · intro c hc
    obtain ⟨cid, cs⟩ := c
    cases cs <;> simp [disconnect, hc]
  · intro hc
    simp [disconnect, hc]

/-- C6 witness: the amended teardown theorem at a concrete active session. -/
theorem disconnect_stops_tracks_closes_output_witness :
    (disconnect
        { stream := some { id := 1, tracks := [{ stopped := false }] },
          audioCtx := some { id := 1, state := ACState.running },
          isActive := true, status := "Connected! Speak now.",
          sessionClosed := false }).sessionClosed = false ∧
    (disconnect
        { stream := some { id := 1, tracks := [{ stopped := false }] },
          audioCtx := some { id := 1, state := ACState.running },
          isActive := true, status := "Connected! Speak now.",
          sessionClosed := false }).stream =
      some { id := 1, tracks := [{ stopped := true }] } ∧
    (disconnect
        { stream := some { id := 1, tracks := [{ stopped := false }] },
          audioCtx := some { id := 1, state := ACState.running },
          isActive := true, status := "Connected! Speak now.",
          sessionClosed := false }).audioCtx = some { id := 1, state := ACState.closed } :=
  ⟨(disconnect_stops_tracks_closes_output _).2.2.1,
   by simpa using
     (disconnect_stops_tracks_closes_output _).2.2.2.1
       { id := 1, tracks := [{ stopped := false }] } rfl,
   (disconnect_stops_tracks_closes_output _).2.2.2.2.2.1
     { id := 1, state := ACState.running } rfl⟩

/-- C7: when the awaited microphone acquisition rejects, `connect` lands in
the catch block with the failure status, never calls the transport connect,
leaves the active flag as it was, and stores no stream. -/
theorem mic_failure_no_connect (env : ConnectEnv) (st : CoachState)
    (hclient : env.liveClientOk = true) (e : String)
    (hmic : env.micResult = Except.error e) :
    (connect env st).1.status = "Failed to access microphone or API." ∧
    ExtCall.liveConnect ∉ (connect env st).2 ∧
    (connect env st).1.isActive = st.isActive ∧
    (connect env st).1.stream = st.stream := by
  simp [connect, hclient, hmic]

/-- C7 witness: the mic-failure theorem at a concrete idle state and a
permission-denied environment. -/
theorem mic_failure_no_connect_witness :
    (connect
        { liveClientOk := true,
          micResult := Except.error "NotAllowedError: Permission denied",
          newCtxId := 1 }
        { stream := none, audioCtx := none, isActive := false,
          status := "Ready to start", sessionClosed := false }).1.status =
      "Failed to access microphone or API." ∧
    ExtCall.liveConnect ∉
      (connect
        { liveClientOk := true,
          micResult := Except.error "NotAllowedError: Permission denied",
          newCtxId := 1 }
        { stream := none, audioCtx := none, isActive := false,
          status := "Ready to start", sessionClosed := false }).2 ∧
    (connect
        { liveClientOk := true,
          micResult := Except.error "NotAllowedError: Permission denied",
          newCtxId := 1 }
        { stream := none, audioCtx := none, isActive := false,
          status := "Ready to start", sessionClosed := false }).1.isActive =
      ({ stream := none, audioCtx := none, isActive := false,
         status := "Ready to start", sessionClosed := false } : CoachState).isActive ∧
    (connect
        { liveClientOk := true,
          micResult := Except.error "NotAllowedError: Permission denied",
          newCtxId := 1 }
        { stream := none, audioCtx := none, isActive := false,
          status := "Ready to start", sessionClosed := false }).1.stream =
      ({ stream := none, audioCtx := none, isActive := false,
         status := "Ready to start", sessionClosed := false } : CoachState).stream :=
  mic_failure_no_connect _ _ rfl "NotAllowedError: Permission denied" rfl

/-- C8 counterexample: invoking `connect` while a session is active (with a
granted microphone) proceeds all the way to the transport connect call,
replaces the stored stream with the new one, and reports "Connecting..." —
no AlreadyActive error exists anywhere in the component. -/
theorem second_connect_no_guard_cex :
    (connect
        { liveClientOk := true,
          micResult := Except.ok { id := 2, tracks := [{ stopped := false }] },
          newCtxId := 2 }
        { stream := some { id := 1, tracks := [{ stopped := false }] },
          audioCtx := some { id := 1, state := ACState.running },
          isActive := true, status := "Connected! Speak now.",
          sessionClosed := false }).1.stream =
      some { id := 2, tracks := [{ stopped := false }] } ∧
    some ({ id := 2, tracks := [{ stopped := false }] } : MicStream) ≠
      some ({ id := 1, tracks := [{ stopped := false }] } : MicStream) ∧
    ExtCall.liveConnect ∈
      (connect
        { liveClientOk := true,
          micResult := Except.ok { id := 2, tracks := [{ stopped := false }] },
          newCtxId := 2 }
        { stream := some { id := 1, tracks := [{ stopped := false }] },
          audioCtx := some { id := 1, state := ACState.running },
          isActive := true, status := "Connected! Speak now.",
          sessionClosed := false }).2 ∧
    (connect
        { liveClientOk := true,
          micResult := Except.ok { id := 2, tracks := [{ stopped := false }] },
          newCtxId := 2 }
        { stream := some { id := 1, tracks := [{ stopped := false }] },
          audioCtx := some { id := 1, state := ACState.running },
          isActive := true, status := "Connected! Speak now.",
          sessionClosed := false }).1.status = "Connecting..." := by
  refine ⟨rfl, ?_, by decide, rfl⟩
  simp

/-- C8 (amended): `connect` performs no active-session check: invoked in any
state, active included, with the client available and the microphone granted,
it attempts the transport connect and overwrites the stream and output-context
refs with freshly created ones. -/
theorem connect_no_active_guard (env : ConnectEnv) (st : CoachState) (stream : MicStream)
    (_hactive : st.isActive = true) (hclient : env.liveClientOk = true)
    (hmic : env.micResult = Except.ok stream) :
    (connect env st).1.stream = some stream ∧
    (connect env st).1.audioCtx = some { id := env.newCtxId, state := ACState.running } ∧
    ExtCall.liveConnect ∈ (connect env st).2 ∧
    (connect env st).1.status = "Connecting..." := by
  simp [connect, hclient, hmic]

/-- C8 witness: the no-guard theorem at a concrete active state and granted
microphone. -/
theorem connect_no_active_guard_witness :
    (connect
        { liveClientOk := true,
          micResult := Except.ok { id := 3, tracks := [{ stopped := false }] },
          newCtxId := 3 }
        { stream := some { id := 1, tracks := [{ stopped := false }] },
          audioCtx := some { id := 1, state := ACState.running },
          isActive := true, status := "Connected! Speak now.",
          sessionClosed := false }).1.stream =
      some { id := 3, tracks := [{ stopped := false }] } ∧
    (connect
        { liveClientOk := true,
          micResult := Except.ok { id := 3, tracks := [{ stopped := false }] },
          newCtxId := 3 }
        { stream := some { id := 1, tracks := [{ stopped := false }] },
          audioCtx := some { id := 1, state := ACState.running },
          isActive := true, status := "Connected! Speak now.",
          sessionClosed := false }).1.audioCtx = some { id := 3, state := ACState.running } ∧
    ExtCall.liveConnect ∈
      (connect
        { liveClientOk := true,
          micResult := Except.ok { id := 3, tracks := [{ stopped := false }] },
          newCtxId := 3 }
        { stream := some { id := 1, tracks := [{ stopped := false }] },
          audioCtx := some { id := 1, state := ACState.running },
          isActive := true, status := "Connected! Speak now.",
          sessionClosed := false }).2 ∧
    (connect
        { liveClientOk := true,
          micResult := Except.ok { id := 3, tracks := [{ stopped := false }] },
          newCtxId := 3 }
        { stream := some { id := 1, tracks := [{ stopped := false }] },
          audioCtx := some { id := 1, state := ACState.running },
          isActive := true, status := "Connected! Speak now.",
          sessionClosed := false }).1.status = "Connecting..." :=
  connect_no_active_guard _ _ _ rfl rfl rfl
